import Mathlib

/-!
Verification development for the `MwmSet` package registry of the omim
repository (`MwmInfo` / `MwmSet` declared in the header embedded in
`src/search/features_layer_path_finder.cpp`, lines 226-637).

The header gives the data model (`MwmInfo` with its `Status` enum and
`uint32_t m_numRefs` counter read back through a `uint8_t` accessor, the
shared-pointer based `MwmId`, `Event`/`EventList`, `RegResult`, the FIFO
`CacheType` deque bounded by `m_cacheSize`) and the full inline body of
`MwmSet::WithEventLog`, the lock/event-dispatch discipline.  The bodies of
the `*Impl` registry operations live in `mwm_set.cpp`, which is not part of
the excerpt; those are modelled from the specification (each such
definition carries a `Modelled from the spec:` doc comment).

Machine integers are modelled as `Nat` with explicit `% 2^32` (resp.
`% 256`) where wrap-around matters.  Shared pointers are modelled as
addresses into an explicit heap, so `shared_ptr` equality is address
equality.
-/

set_option maxRecDepth 4000

namespace MwmSetModel

/-- `platform::LocalCountryFile`, reduced to the two fields the registry
consults: country name and version. -/
structure LocalCountryFile where
  name : String
  version : Nat
deriving DecidableEq

/-- A default-constructed `LocalCountryFile` (used for the absent
`m_oldFile` of a one-file `Event`). -/
def LocalCountryFile.empty : LocalCountryFile := ⟨"", 0⟩

/-- `MwmInfo::Status` (header lines 267-272). -/
inductive Status where
  | registered
  | markedToDeregister
  | deregistered
deriving DecidableEq

/-- `MwmInfo` (header lines 254-315), kept to the fields the registry
reads and mutates: the local file, the status and the `uint32_t`
reference counter `m_numRefs`. -/
structure MwmInfo where
  file : LocalCountryFile
  status : Status
  numRefs : Nat
deriving DecidableEq

/-- `MwmInfo::GetStatus`. -/
def MwmInfo.GetStatus (i : MwmInfo) : Status := i.status

/-- `MwmInfo::IsRegistered`: `m_status == STATUS_REGISTERED`. -/
def MwmInfo.IsRegistered (i : MwmInfo) : Bool :=
  decide (i.status = Status.registered)

/-- `MwmInfo::IsUpToDate`: `return IsRegistered();`. -/
def MwmInfo.IsUpToDate (i : MwmInfo) : Bool := i.IsRegistered

/-- `uint8_t MwmInfo::GetNumRefs() const { return m_numRefs; }` — the
32-bit counter is narrowed to `uint8_t` on return, i.e. reduced mod 256. -/
def MwmInfo.GetNumRefs (i : MwmInfo) : Nat := i.numRefs % 256

/-- `MwmSet::MwmId` holds a `shared_ptr<MwmInfo> m_info`; modelled as an
optional heap address, `none` being the null (default-constructed) id. -/
abbrev MwmId := Option Nat

/-- `MwmId::operator==`: `GetInfo() == rhs.GetInfo()` — `shared_ptr`
equality, i.e. identity of the pointed-to `MwmInfo` (address equality);
the record's contents are not consulted. -/
def mwmIdEq (x y : MwmId) : Bool := decide (x = y)

/-- `MwmId::operator<` (header line 352): `GetInfo() < rhs.GetInfo()` —
`shared_ptr` ordering, i.e. ordering of the stored pointer addresses (the
null pointer below every live address); like `operator==`, the record's
contents are not consulted. -/
def mwmIdLt (x y : MwmId) : Bool :=
  match x, y with
  | none, none => false
  | none, some _ => true
  | some _, none => false
  | some a, some b => decide (a < b)

/-- `MwmSet::Event::Type` (header lines 408-413). -/
inductive EventType where
  | registered
  | deregistered
  | updated
deriving DecidableEq

/-- `MwmSet::Event` (header lines 406-436): a type tag plus the file (and,
for `TYPE_UPDATED`, the old file). -/
structure Event where
  type : EventType
  file : LocalCountryFile
  oldFile : LocalCountryFile
deriving DecidableEq

/-- The one-file `Event` constructor: `m_oldFile` stays default. -/
def Event.mk1 (t : EventType) (f : LocalCountryFile) : Event :=
  ⟨t, f, LocalCountryFile.empty⟩

/-- `MwmSet::RegResult` (header lines 458-465). -/
inductive RegResult where
  | Success
  | VersionAlreadyExists
  | VersionTooOld
  | UnsupportedFileFormat
  | BadFile
deriving DecidableEq

/-- The full registry state: the heap of shared `MwmInfo` records, the
catalog `m_info` (addresses of records currently registered, as the flat
contents of the name-indexed map), the warm cache `m_cache` of
`(address, value token)` pairs, the capacity `m_cacheSize`, and a counter
producing fresh value tokens for the opaque open/decode collaborator. -/
structure RegistryState where
  heap : List MwmInfo
  catalog : List Nat
  cache : List (Nat × Nat)
  cacheSize : Nat
  nextValue : Nat
deriving DecidableEq

/-- Dereference an address: the `MwmInfo` the shared pointer points to. -/
def RegistryState.infoAt (s : RegistryState) (a : Nat) : Option MwmInfo :=
  s.heap[a]?

/-- `MwmId::IsAlive`: `m_info && m_info->GetStatus() != STATUS_DEREGISTERED`. -/
def MwmId.IsAlive (s : RegistryState) (id : MwmId) : Bool :=
  match id with
  | none => false
  | some a =>
    match s.infoAt a with
    | none => false
    | some i => decide (i.GetStatus ≠ Status.deregistered)

/-- An address is alive when the id made from it is. -/
def aliveAt (s : RegistryState) (a : Nat) : Bool := MwmId.IsAlive s (some a)

/-- Actions observable around the registry's critical section: taking and
dropping `m_lock`, and invoking one observer callback. -/
inductive Action where
  | lockAcquire
  | lockRelease
  | callback (e : Event)
deriving DecidableEq

/-- The outcome of one public registry operation: the new state, the
operation's return value, the accumulated `EventList`, and the trace of
lock/callback actions the operation performs, in order. -/
structure OpResult (α : Type) where
  state : RegistryState
  value : α
  events : List Event
  trace : List Action

/-- `MwmSet::WithEventLog` (header lines 565-574): run `fn` with `m_lock`
held, collecting events into a caller-local `EventList`; the
`lock_guard` scope ends before `ProcessEventList` triggers the observer
callbacks, one per accumulated event, in order. -/
def WithEventLog {α : Type} (fn : RegistryState → RegistryState × α × List Event)
    (s : RegistryState) : OpResult α :=
  let r := fn s
  { state := r.1
    value := r.2.1
    events := r.2.2
    trace := Action.lockAcquire :: Action.lockRelease :: r.2.2.map Action.callback }

/-- Trace checker: scanning with the current lock depth, every callback
must happen at depth 0 (the lock not held). -/
def noCallbackWhileLocked : Nat → List Action → Bool
  | _, [] => true
  | d, Action.lockAcquire :: r => noCallbackWhileLocked (d + 1) r
  | d, Action.lockRelease :: r => noCallbackWhileLocked (d - 1) r
  | d, Action.callback _ :: r => decide (d = 0) && noCallbackWhileLocked d r

/-- Point update of the record at address `a` (mutation through the
shared pointer). -/
def modifyInfo (s : RegistryState) (a : Nat) (f : MwmInfo → MwmInfo) : RegistryState :=
  match s.infoAt a with
  | none => s
  | some i => { s with heap := s.heap.set a (f i) }

/-- `MwmInfo::SetStatus` applied through the catalog. -/
def setStatusAt (s : RegistryState) (a : Nat) (st : Status) : RegistryState :=
  modifyInfo s a fun i => { i with status := st }

/-- `++info->m_numRefs` (a `uint32_t`, hence mod `2^32`). -/
def incRefAt (s : RegistryState) (a : Nat) : RegistryState :=
  modifyInfo s a fun i => { i with numRefs := (i.numRefs + 1) % 2 ^ 32 }

/-- `--info->m_numRefs` (never called at 0 by the handle discipline;
truncated subtraction keeps the model total). -/
def decRefAt (s : RegistryState) (a : Nat) : RegistryState :=
  modifyInfo s a fun i => { i with numRefs := i.numRefs - 1 }

/-- Erase a record from the catalog `m_info`. -/
def removeFromCatalog (s : RegistryState) (a : Nat) : RegistryState :=
  { s with catalog := s.catalog.erase a }

/-- Allocate a fresh `MwmInfo` (status `STATUS_REGISTERED`, refcount 0)
and append it to the catalog; returns the new address. -/
def allocInfo (s : RegistryState) (f : LocalCountryFile) : RegistryState × Nat :=
  ({ s with
      heap := s.heap ++ [⟨f, Status.registered, 0⟩]
      catalog := s.catalog ++ [s.heap.length] },
   s.heap.length)

/-- Modelled from the spec: the body of
`MwmSet::DeregisterImpl(MwmId const &, EventList &)` is not under `src/`
(only its declaration, header line 513).  Per the spec, a 0-refcount alive
record transitions to `Deregistered`, leaves the catalog and contributes a
`Deregistered` event; a record with outstanding handles is only marked
`MarkedForDeregistration`.  Returns whether removal happened now. -/
def DeregisterImpl (s : RegistryState) (a : Nat) : RegistryState × Bool × List Event :=
  match s.infoAt a with
  | none => (s, false, [])
  | some i =>
    if i.status = Status.deregistered then (s, false, [])
    else if i.numRefs = 0 then
      (removeFromCatalog (setStatusAt s a Status.deregistered) a, true,
        [Event.mk1 EventType.deregistered i.file])
    else
      (setStatusAt s a Status.markedToDeregister, false, [])

/-- Modelled from the spec: `MwmSet::GetMwmIdByCountryFileImpl` (only the
declaration, header line 603, is under `src/`) — name-based lookup
resolves to the alive catalog entry with the highest version, null when
no alive entry carries the name. -/
def GetMwmIdByCountryFileImpl (s : RegistryState) (n : String) : MwmId :=
  s.catalog.foldl
    (fun best a =>
      match s.infoAt a with
      | none => best
      | some i =>
        if i.file.name = n ∧ i.status ≠ Status.deregistered then
          match best with
          | none => some a
          | some b =>
            match s.infoAt b with
            | none => some a
            | some j => if j.file.version < i.file.version then some a else best
        else best)
    none

/-- Modelled from the spec: the bodies of `MwmSet::Register` /
`RegisterImpl` are not under `src/`.  Same alive version →
`VersionAlreadyExists` with the existing id, no catalog change; an
existing strictly newer alive version → null id with `VersionTooOld`, no
change; otherwise the old alive version (when present) is deregistered
(marked when its refcount is positive) and a fresh record is appended,
with a single `Updated` (resp. `Registered`) event.  The input file is
assumed well-formed: the `BadFile` / `UnsupportedFileFormat` outcomes
belong to the opaque decode collaborator and make no catalog change. -/
def RegisterBody (f : LocalCountryFile) (s : RegistryState) :
    RegistryState × (MwmId × RegResult) × List Event :=
  match GetMwmIdByCountryFileImpl s f.name with
  | none =>
    let r := allocInfo s f
    (r.1, (some r.2, RegResult.Success), [Event.mk1 EventType.registered f])
  | some b =>
    match s.infoAt b with
    | none =>
      let r := allocInfo s f
      (r.1, (some r.2, RegResult.Success), [Event.mk1 EventType.registered f])
    | some j =>
      if j.file.version = f.version then
        (s, (some b, RegResult.VersionAlreadyExists), [])
      else if j.file.version < f.version then
        let s2 := (DeregisterImpl s b).1
        let r := allocInfo s2 f
        (r.1, (some r.2, RegResult.Success), [⟨EventType.updated, f, j.file⟩])
      else
        (s, (none, RegResult.VersionTooOld), [])

/-- `MwmSet::Register`: the registration body run through `WithEventLog`. -/
def Register (s : RegistryState) (f : LocalCountryFile) : OpResult (MwmId × RegResult) :=
  WithEventLog (RegisterBody f) s

/-- Catalog entries that are alive and carry the given name. -/
def aliveMatches (s : RegistryState) (n : String) : List Nat :=
  s.catalog.filter fun a =>
    match s.infoAt a with
    | none => false
    | some i => decide (i.file.name = n ∧ i.status ≠ Status.deregistered)

/-- Modelled from the spec: the body of `MwmSet::Deregister` is not under
`src/`.  Every alive record matching the name is deregistered through
`DeregisterImpl` (marked when refcount > 0); returns false when no alive
match existed or some removal had to be deferred. -/
def DeregisterBody (n : String) (s : RegistryState) :
    RegistryState × Bool × List Event :=
  match aliveMatches s n with
  | [] => (s, false, [])
  | ms =>
    ms.foldl
      (fun acc a =>
        let r := DeregisterImpl acc.1 a
        (r.1, acc.2.1 && r.2.1, acc.2.2 ++ r.2.2))
      (s, true, [])

/-- `MwmSet::Deregister`: the body run through `WithEventLog`. -/
def Deregister (s : RegistryState) (n : String) : OpResult Bool :=
  WithEventLog (DeregisterBody n) s

/-- First cached value for an address, if any (`m_cache` linear scan). -/
def cacheFind (c : List (Nat × Nat)) (a : Nat) : Option Nat :=
  match c.find? (fun p => decide (p.1 = a)) with
  | some p => some p.2
  | none => none

/-- Erase the first cache entry with the given address (the found
iterator is erased). -/
def cacheEraseFirst : List (Nat × Nat) → Nat → List (Nat × Nat)
  | [], _ => []
  | p :: r, a => if p.1 = a then r else p :: cacheEraseFirst r a

/-- FIFO insertion bounded by the capacity `k`: push at the back of the
deque, then evict from the front while the size exceeds `k`. -/
def cachePush (k : Nat) (c : List (Nat × Nat)) (e : Nat × Nat) : List (Nat × Nat) :=
  let c2 := c ++ [e]
  if k < c2.length then c2.drop (c2.length - k) else c2

/-- Modelled from the spec: the body of `MwmSet::LockValueImpl` is not
under `src/` (declaration, header line 586).  A handle is produced only
for a `Registered` record; a warm cache entry for the id is removed from
the cache and handed back (never left in both places), otherwise the
opaque open/decode collaborator produces a fresh value (modelled as
always succeeding); on success the refcount is incremented. -/
def LockValueImpl (s : RegistryState) (id : MwmId) :
    RegistryState × Option Nat × List Event :=
  match id with
  | none => (s, none, [])
  | some a =>
    match s.infoAt a with
    | none => (s, none, [])
    | some i =>
      if i.status = Status.registered then
        match cacheFind s.cache a with
        | some v => ({ incRefAt s a with cache := cacheEraseFirst s.cache a }, some v, [])
        | none => ({ incRefAt s a with nextValue := s.nextValue + 1 }, some s.nextValue, [])
      else (s, none, [])

/-- `MwmSet::LockValue` (handle acquisition) through `WithEventLog`. -/
def LockValue (s : RegistryState) (id : MwmId) : OpResult (Option Nat) :=
  WithEventLog (fun s => LockValueImpl s id) s

/-- Modelled from the spec: the body of `MwmSet::UnlockValueImpl` is not
under `src/` (declaration, header line 588).  Releasing a handle
decrements the refcount; when it reaches 0 on a `MarkedForDeregistration`
record, `DeregisterImpl` removes the record and appends the one deferred
`Deregistered` event; a still-`Registered` record's value goes back to
the FIFO cache, evicting the oldest entry when the capacity is reached. -/
def UnlockValueImpl (s : RegistryState) (a : Nat) (v : Nat) :
    RegistryState × List Event :=
  match s.infoAt a with
  | none => (s, [])
  | some i =>
    let s2 := decRefAt s a
    if i.numRefs - 1 = 0 ∧ i.status = Status.markedToDeregister then
      let r := DeregisterImpl s2 a
      (r.1, r.2.2)
    else if i.status = Status.registered then
      ({ s2 with cache := cachePush s2.cacheSize s2.cache (a, v) }, [])
    else (s2, [])

/-- `MwmSet::UnlockValue` (handle release) through `WithEventLog`. -/
def UnlockValue (s : RegistryState) (a : Nat) (v : Nat) : OpResult Unit :=
  WithEventLog (fun s => let r := UnlockValueImpl s a v; (r.1, (), r.2)) s

/-- Modelled from the spec and the header comment (line 532: "Clears
caches and mwm's registry. All known mwms won't be marked as
DEREGISTERED."): `Clear` wipes catalog and cache, touches no record's
status, and synthesizes no events. -/
def ClearBody (s : RegistryState) : RegistryState × Unit × List Event :=
  ({ s with catalog := [], cache := [] }, (), [])

/-- `MwmSet::Clear` through `WithEventLog`. -/
def Clear (s : RegistryState) : OpResult Unit := WithEventLog ClearBody s

/-- The handle-safety invariant: a record with outstanding handles
(positive refcount) is never in status `Deregistered`. -/
def RefInv (s : RegistryState) : Prop :=
  ∀ a i, s.infoAt a = some i → 0 < i.numRefs → i.status ≠ Status.deregistered

/-- The registry with no packages (fresh `MwmSet` with capacity `k`). -/
def emptyState (k : Nat) : RegistryState :=
  { heap := [], catalog := [], cache := [], cacheSize := k, nextValue := 0 }

/-! ### Basic lemmas about the state helpers -/

theorem infoAt_modifyInfo (s : RegistryState) (a : Nat) (f : MwmInfo → MwmInfo) (b : Nat) :
    (modifyInfo s a f).infoAt b = if b = a then (s.infoAt a).map f else s.infoAt b := by
  unfold modifyInfo
  cases h : s.infoAt a with
  | none =>
    by_cases hb : b = a <;> simp [hb, h]
  | some i =>
    by_cases hb : b = a
    · subst hb
      have hlt : b < s.heap.length := by
        by_contra hc
        push_neg at hc
        simp [RegistryState.infoAt, List.getElem?_eq_none hc] at h
      simp only [RegistryState.infoAt, h, Option.map_some]
      rw [List.getElem?_set_self]
      simp [hlt]
      exact hlt
    · simp only [RegistryState.infoAt, h, if_neg hb]
      exact List.getElem?_set_ne (Ne.symm hb)

theorem catalog_modifyInfo (s : RegistryState) (a : Nat) (f : MwmInfo → MwmInfo) :
    (modifyInfo s a f).catalog = s.catalog := by
  unfold modifyInfo
  cases s.infoAt a <;> rfl

theorem cache_modifyInfo (s : RegistryState) (a : Nat) (f : MwmInfo → MwmInfo) :
    (modifyInfo s a f).cache = s.cache := by
  unfold modifyInfo
  cases s.infoAt a <;> rfl

theorem cacheSize_modifyInfo (s : RegistryState) (a : Nat) (f : MwmInfo → MwmInfo) :
    (modifyInfo s a f).cacheSize = s.cacheSize := by
  unfold modifyInfo
  cases s.infoAt a <;> rfl

theorem infoAt_removeFromCatalog (s : RegistryState) (a b : Nat) :
    (removeFromCatalog s a).infoAt b = s.infoAt b := rfl

theorem infoAt_alloc (s : RegistryState) (f : LocalCountryFile) (b : Nat) :
    (allocInfo s f).1.infoAt b =
      if b = s.heap.length then some ⟨f, Status.registered, 0⟩ else s.infoAt b := by
  unfold allocInfo RegistryState.infoAt
  by_cases hb : b = s.heap.length
  · subst hb
    simp [List.getElem?_concat_length]
  · rcases Nat.lt_or_ge b s.heap.length with hlt | hge
    · rw [if_neg hb, List.getElem?_append]
      simp [hlt]
    · have hgt : s.heap.length < b := lt_of_le_of_ne hge (fun h => hb h.symm)
      rw [if_neg hb, List.getElem?_eq_none (by simp; omega : (s.heap ++ [_]).length ≤ b),
        List.getElem?_eq_none (le_of_lt hgt)]

/-! ### Lock/callback discipline (`WithEventLog`) -/

theorem trace_withEventLog {α : Type} (fn : RegistryState → RegistryState × α × List Event)
    (s : RegistryState) :
    (WithEventLog fn s).trace =
      Action.lockAcquire :: Action.lockRelease ::
        (WithEventLog fn s).events.map Action.callback := rfl

theorem noCallbackWhileLocked_callbacks (l : List Event) :
    noCallbackWhileLocked 0 (l.map Action.callback) = true := by
  induction l with
  | nil => rfl
  | cons e r ih => simp [noCallbackWhileLocked, ih]

theorem noCallbackWhileLocked_withEventLog {α : Type}
    (fn : RegistryState → RegistryState × α × List Event) (s : RegistryState) :
    noCallbackWhileLocked 0 (WithEventLog fn s).trace = true := by
  rw [trace_withEventLog]
  show noCallbackWhileLocked 1 (Action.lockRelease :: _) = true
  show noCallbackWhileLocked 0 _ = true
  exact noCallbackWhileLocked_callbacks _

/-! ### C9 / C10: source-level facts about `MwmInfo` and `MwmId` -/

/-- C9: the internal reference count is a 32-bit unsigned integer, but the
test-visible accessor `GetNumRefs` narrows it to `uint8_t`: it reports the
count modulo 256, which differs from the true count whenever that count
exceeds 255. -/
theorem getNumRefs_narrowed (i : MwmInfo) (h255 : 255 < i.numRefs)
    (h32 : i.numRefs < 2 ^ 32) :
    i.GetNumRefs = i.numRefs % 256 ∧ i.GetNumRefs ≠ i.numRefs := by
  refine ⟨rfl, ?_⟩
  unfold MwmInfo.GetNumRefs
  have : i.numRefs % 256 < 256 := Nat.mod_lt _ (by norm_num)
  omega

theorem getNumRefs_narrowed_witness :
    255 < (MwmInfo.mk ⟨"A", 1⟩ Status.registered 256).numRefs ∧
    (MwmInfo.mk ⟨"A", 1⟩ Status.registered 256).GetNumRefs ≠
      (MwmInfo.mk ⟨"A", 1⟩ Status.registered 256).numRefs :=
  ⟨by decide, (getNumRefs_narrowed _ (by decide) (by decide)).2⟩

/-- C10: `MwmId` equality and ordering are identity of the underlying
shared `MwmInfo` (address comparison of the stored pointer), never content
comparison: ids compare equal iff they reference the same record; records
at distinct addresses compare unequal no matter their contents; two null
ids compare equal; a null id is never alive; `operator<` on non-null ids
is exactly address ordering, is irreflexive (consistent with equality),
excludes equality, and together with equality totally orders ids — the
record's name or version appears nowhere in either comparison. -/
theorem mwmId_identity :
    (∀ x y : MwmId, mwmIdEq x y = true ↔ x = y) ∧
    mwmIdEq none none = true ∧
    (∀ a b : Nat, a ≠ b → mwmIdEq (some a) (some b) = false) ∧
    (∀ s : RegistryState, MwmId.IsAlive s none = false) ∧
    (∀ a b : Nat, mwmIdLt (some a) (some b) = true ↔ a < b) ∧
    (∀ x : MwmId, mwmIdLt x x = false) ∧
    (∀ x y : MwmId, mwmIdLt x y = true → mwmIdEq x y = false) ∧
    (∀ x y : MwmId, mwmIdEq x y = true ∨ mwmIdLt x y = true ∨ mwmIdLt y x = true) := by
  refine ⟨fun x y => ?_, rfl, fun a b hab => ?_, fun s => rfl, fun a b => ?_, fun x => ?_,
    fun x y hxy => ?_, fun x y => ?_⟩
  · unfold mwmIdEq
    exact decide_eq_true_iff
  · unfold mwmIdEq
    simp [hab]
  · show decide (a < b) = true ↔ a < b
    exact decide_eq_true_iff
  · cases x with
    | none => rfl
    | some a =>
      show decide (a < a) = false
      simp
  · cases x with
    | none =>
      cases y with
      | none => exact Bool.noConfusion hxy
      | some b =>
        show decide ((none : MwmId) = some b) = false
        exact decide_eq_false fun hcon => Option.noConfusion hcon
    | some a =>
      cases y with
      | none => exact Bool.noConfusion hxy
      | some b =>
        have hab : a < b := of_decide_eq_true hxy
        show decide ((some a : MwmId) = some b) = false
        exact decide_eq_false fun hcon =>
          absurd (Option.some.inj hcon) (Nat.ne_of_lt hab)
  · cases x with
    | none =>
      cases y with
      | none => exact Or.inl rfl
      | some b => exact Or.inr (Or.inl rfl)
    | some a =>
      cases y with
      | none => exact Or.inr (Or.inr rfl)
      | some b =>
        rcases Nat.lt_trichotomy a b with h | h | h
        · exact Or.inr (Or.inl (show decide (a < b) = true from decide_eq_true h))
        · refine Or.inl (show decide ((some a : MwmId) = some b) = true from ?_)
          exact decide_eq_true (by rw [h])
        · exact Or.inr (Or.inr (show decide (b < a) = true from decide_eq_true h))

theorem mwmId_identity_witness :
    (0 ≠ 1) ∧ mwmIdEq (some 0) (some 1) = false ∧ mwmIdEq none none = true ∧
    ((0 : Nat) < 1) ∧ mwmIdLt (some 0) (some 1) = true ∧
    mwmIdLt (some 1) (some 1) = false :=
  ⟨by decide, mwmId_identity.2.2.1 0 1 (by decide), mwmId_identity.2.1,
    by decide, (mwmId_identity.2.2.2.2.1 0 1).mpr (by decide),
    mwmId_identity.2.2.2.2.2.1 (some 1)⟩

/-! ### C2: no observer callback under the lock -/

/-- C2: every mutating registry operation (`Register`, `Deregister`,
handle acquisition `LockValue` and release `UnlockValue`) accumulates its
events inside the critical section and dispatches them strictly after the
lock is released: its trace is lock-acquire, lock-release, then the
callbacks in event order, and no callback ever happens at positive lock
depth. -/
theorem no_callback_under_lock :
    (∀ s f, noCallbackWhileLocked 0 (Register s f).trace = true ∧
      (Register s f).trace = Action.lockAcquire :: Action.lockRelease ::
        (Register s f).events.map Action.callback) ∧
    (∀ s n, noCallbackWhileLocked 0 (Deregister s n).trace = true ∧
      (Deregister s n).trace = Action.lockAcquire :: Action.lockRelease ::
        (Deregister s n).events.map Action.callback) ∧
    (∀ s id, noCallbackWhileLocked 0 (LockValue s id).trace = true ∧
      (LockValue s id).trace = Action.lockAcquire :: Action.lockRelease ::
        (LockValue s id).events.map Action.callback) ∧
    (∀ s a v, noCallbackWhileLocked 0 (UnlockValue s a v).trace = true ∧
      (UnlockValue s a v).trace = Action.lockAcquire :: Action.lockRelease ::
        (UnlockValue s a v).events.map Action.callback) :=
  ⟨fun s f => ⟨noCallbackWhileLocked_withEventLog _ s, trace_withEventLog _ s⟩,
   fun s n => ⟨noCallbackWhileLocked_withEventLog _ s, trace_withEventLog _ s⟩,
   fun s id => ⟨noCallbackWhileLocked_withEventLog _ s, trace_withEventLog _ s⟩,
   fun s a v => ⟨noCallbackWhileLocked_withEventLog _ s, trace_withEventLog _ s⟩⟩

/-! ### C8: `Clear` is a silent administrative reset -/

/-- C8: `Clear` empties the catalog and the cache, touches no record, and
dispatches no event at all (its trace has no callback), in contrast with a
targeted `Deregister`, which does produce an event for a removal. -/
theorem clear_is_silent (s : RegistryState) :
    (Clear s).state.catalog = [] ∧
    (Clear s).state.cache = [] ∧
    (Clear s).state.heap = s.heap ∧
    (Clear s).events = [] ∧
    (Clear s).trace = [Action.lockAcquire, Action.lockRelease] ∧
    (Deregister (Register (emptyState 4) ⟨"A", 1⟩).state "A").events ≠ [] :=
  ⟨rfl, rfl, rfl, rfl, rfl, by decide⟩

/-! ### C5 / C6: re-registration outcomes -/

/-- C5: registering a (name, version) whose alive entry is already the one
name lookup resolves to is idempotent: both calls return
`VersionAlreadyExists` together with the existing entry's id, and the
state — hence catalog size and the entry's refcount — is unchanged. -/
theorem register_idempotent (s : RegistryState) (n : String) (v b : Nat) (j : MwmInfo)
    (hb : GetMwmIdByCountryFileImpl s n = some b)
    (hj : s.infoAt b = some j)
    (hv : j.file.version = v) :
    (Register s ⟨n, v⟩).value = (some b, RegResult.VersionAlreadyExists) ∧
    (Register s ⟨n, v⟩).state = s ∧
    (Register s ⟨n, v⟩).events = [] ∧
    (Register s ⟨n, v⟩).state.catalog.length = s.catalog.length ∧
    (Register s ⟨n, v⟩).state.infoAt b = some j ∧
    (Register (Register s ⟨n, v⟩).state ⟨n, v⟩).value =
      (some b, RegResult.VersionAlreadyExists) ∧
    (Register (Register s ⟨n, v⟩).state ⟨n, v⟩).state = s := by
  have hbody : RegisterBody ⟨n, v⟩ s =
      (s, (some b, RegResult.VersionAlreadyExists), []) := by
    unfold RegisterBody
    rw [hb]
    simp only [hj]
    simp [hv]
  have h1 : Register s ⟨n, v⟩ =
      { state := s, value := (some b, RegResult.VersionAlreadyExists),
        events := [], trace := [Action.lockAcquire, Action.lockRelease] } := by
    unfold Register WithEventLog
    rw [hbody]
    rfl
  rw [h1]
  exact ⟨rfl, rfl, rfl, rfl, hj, by rw [h1], by rw [h1]⟩

theorem register_idempotent_witness :
    GetMwmIdByCountryFileImpl (Register (emptyState 4) ⟨"A", 1⟩).state "A" = some 0 ∧
    (Register (Register (emptyState 4) ⟨"A", 1⟩).state ⟨"A", 1⟩).value =
      (some 0, RegResult.VersionAlreadyExists) := by
  refine ⟨by decide, (register_idempotent (Register (emptyState 4) ⟨"A", 1⟩).state
    "A" 1 0 ⟨⟨"A", 1⟩, Status.registered, 0⟩ (by decide) (by decide) rfl).1⟩

/-- C6: registering a version strictly older than the alive version that
name lookup resolves to returns a null id with `VersionTooOld`, changes
nothing in the catalog and emits no event. -/
theorem register_version_too_old (s : RegistryState) (n : String) (v b : Nat) (j : MwmInfo)
    (hb : GetMwmIdByCountryFileImpl s n = some b)
    (hj : s.infoAt b = some j)
    (hv : v < j.file.version) :
    (Register s ⟨n, v⟩).value = (none, RegResult.VersionTooOld) ∧
    (Register s ⟨n, v⟩).state = s ∧
    (Register s ⟨n, v⟩).events = [] := by
  have hbody : RegisterBody ⟨n, v⟩ s = (s, (none, RegResult.VersionTooOld), []) := by
    unfold RegisterBody
    rw [hb]
    simp only [hj]
    have h1 : ¬ j.file.version = v := by omega
    have h2 : ¬ j.file.version < v := by omega
    simp [h1, h2]
  have h1 : Register s ⟨n, v⟩ =
      { state := s, value := (none, RegResult.VersionTooOld),
        events := [], trace := [Action.lockAcquire, Action.lockRelease] } := by
    unfold Register WithEventLog
    rw [hbody]
    rfl
  rw [h1]
  exact ⟨rfl, rfl, rfl⟩

theorem register_version_too_old_witness :
    (1 : Nat) < 2 ∧
    (Register (Register (emptyState 4) ⟨"A", 2⟩).state ⟨"A", 1⟩).value =
      (none, RegResult.VersionTooOld) := by
  refine ⟨by decide, (register_version_too_old (Register (emptyState 4) ⟨"A", 2⟩).state
    "A" 1 0 ⟨⟨"A", 2⟩, Status.registered, 0⟩ (by decide) (by decide) (by decide)).1⟩

/-! ### C3: the deferred `Deregistered` event fires exactly once -/

/-- C3: releasing the last handle (refcount 1 → 0) on a record in status
`MarkedForDeregistration` produces exactly one `Deregistered` event for
that record's file — the event list is that singleton — and the
operation's trace dispatches that one callback strictly after the lock is
released. -/
theorem last_release_fires_once (s : RegistryState) (a v : Nat) (i : MwmInfo)
    (hi : s.infoAt a = some i)
    (hst : i.status = Status.markedToDeregister)
    (hrefs : i.numRefs = 1) :
    (UnlockValue s a v).events = [Event.mk1 EventType.deregistered i.file] ∧
    (UnlockValue s a v).trace =
      [Action.lockAcquire, Action.lockRelease,
        Action.callback (Event.mk1 EventType.deregistered i.file)] ∧
    noCallbackWhileLocked 0 (UnlockValue s a v).trace = true := by
  have hdec : (decRefAt s a).infoAt a = some { i with numRefs := i.numRefs - 1 } := by
    rw [decRefAt, infoAt_modifyInfo, if_pos rfl, hi]
    rfl
  have himpl : UnlockValueImpl s a v =
      ((DeregisterImpl (decRefAt s a) a).1, [Event.mk1 EventType.deregistered i.file]) := by
    unfold UnlockValueImpl
    simp only [hi]
    rw [if_pos ⟨by omega, hst⟩]
    unfold DeregisterImpl
    simp only [hdec]
    have h1 : ¬ ({ i with numRefs := i.numRefs - 1 } : MwmInfo).status = Status.deregistered := by
      show ¬ i.status = Status.deregistered
      rw [hst]
      intro hcon
      exact Status.noConfusion hcon
    rw [if_neg h1, if_pos (by show i.numRefs - 1 = 0; omega)]
  have h2 : UnlockValue s a v =
      { state := (UnlockValueImpl s a v).1, value := (),
        events := (UnlockValueImpl s a v).2,
        trace := Action.lockAcquire :: Action.lockRelease ::
          (UnlockValueImpl s a v).2.map Action.callback } := rfl
  rw [h2, himpl]
  refine ⟨rfl, rfl, ?_⟩
  simp [noCallbackWhileLocked]

theorem last_release_fires_once_witness :
    (RegistryState.infoAt
        ⟨[⟨⟨"A", 1⟩, Status.markedToDeregister, 1⟩], [0], [], 4, 1⟩ 0 =
      some ⟨⟨"A", 1⟩, Status.markedToDeregister, 1⟩) ∧
    (UnlockValue ⟨[⟨⟨"A", 1⟩, Status.markedToDeregister, 1⟩], [0], [], 4, 1⟩ 0 0).events =
      [Event.mk1 EventType.deregistered ⟨"A", 1⟩] := by
  refine ⟨by decide, (last_release_fires_once
    ⟨[⟨⟨"A", 1⟩, Status.markedToDeregister, 1⟩], [0], [], 4, 1⟩ 0 0
    ⟨⟨"A", 1⟩, Status.markedToDeregister, 1⟩ (by decide) rfl rfl).1⟩

/-! ### C7: warm cache capacity, FIFO eviction, no duplication -/

theorem cachePush_no_evict (k : Nat) :
    ∀ (l c : List (Nat × Nat)), c.length + l.length ≤ k →
      l.foldl (cachePush k) c = c ++ l := by
  intro l
  induction l with
  | nil => intro c _; simp
  | cons e r ih =>
    intro c hle
    have hpush : cachePush k c e = c ++ [e] := by
      unfold cachePush
      rw [if_neg (by simp at hle ⊢; omega)]
    show r.foldl (cachePush k) (cachePush k c e) = c ++ e :: r
    rw [hpush, ih (c ++ [e]) (by simp at hle ⊢; omega)]
    simp

theorem cacheFind_eq_none_of_not_mem (c : List (Nat × Nat)) (a : Nat)
    (h : a ∉ c.map Prod.fst) : cacheFind c a = none := by
  unfold cacheFind
  rw [List.find?_eq_none.mpr]
  intro p hp
  simp only [decide_eq_true_eq]
  intro he
  exact h (he ▸ List.mem_map_of_mem Prod.fst hp)

theorem cacheFind_cacheEraseFirst_self (c : List (Nat × Nat)) (a : Nat)
    (h : (c.map Prod.fst).Nodup) : cacheFind (cacheEraseFirst c a) a = none := by
  induction c with
  | nil => rfl
  | cons p r ih =>
    simp only [List.map_cons, List.nodup_cons] at h
    unfold cacheEraseFirst
    by_cases hp : p.1 = a
    · rw [if_pos hp]
      exact cacheFind_eq_none_of_not_mem r a (hp ▸ h.1)
    · rw [if_neg hp]
      unfold cacheFind
      rw [List.find?_cons_of_neg _ (by simpa using hp)]
      exact ih h.2

/-- C7: the warm cache is a strict FIFO bounded by the capacity `k`:
pushing `k + 1` releases into an empty cache keeps exactly the `k`
most-recent ones and drops the first; handle release on a `Registered`
record performs exactly that push; and handing a cached value back as a
handle removes it from the cache, so it is never in both places at once. -/
theorem cache_fifo_bounded (k : Nat) (e : Nat × Nat) (l : List (Nat × Nat))
    (s : RegistryState) (a v : Nat) (i : MwmInfo) :
    ((e :: l).length = k + 1 →
      (e :: l).foldl (cachePush k) [] = l) ∧
    ((e :: l).length = k + 1 → ((e :: l).map Prod.fst).Nodup →
      cacheFind ((e :: l).foldl (cachePush k) []) e.1 = none) ∧
    (s.infoAt a = some i → i.status = Status.registered →
      (UnlockValue s a v).state.cache = cachePush s.cacheSize s.cache (a, v)) ∧
    (s.infoAt a = some i → i.status = Status.registered →
      cacheFind s.cache a = some v → (s.cache.map Prod.fst).Nodup →
      (LockValue s (some a)).value = some v ∧
      cacheFind (LockValue s (some a)).state.cache a = none) := by
  have hfold : (e :: l).length = k + 1 → (e :: l).foldl (cachePush k) [] = l := by
    intro hlen
    simp only [List.length_cons] at hlen
    rcases List.eq_nil_or_concat l with hnil | ⟨r, b, hrb⟩
    · subst hnil
      have hk : k = 0 := by simpa using hlen
      subst hk
      rfl
    · subst hrb
      simp only [List.concat_eq_append] at hlen ⊢
      have hkr : (e :: r).length = k := by
        simp at hlen ⊢
        omega
    -- the first k pushes fill the cache without eviction, the last one evicts the head
      have h1 : (e :: r).foldl (cachePush k) [] = e :: r :=
        cachePush_no_evict k (e :: r) [] (by simp [← hkr])
      have h2 : e :: (r ++ [b]) = (e :: r) ++ [b] := rfl
      rw [h2, List.foldl_append, h1]
      show cachePush k (e :: r) b = r ++ [b]
      unfold cachePush
      rw [if_pos (by simp [← hkr])]
      have h3 : (e :: r) ++ [b] = e :: (r ++ [b]) := rfl
      rw [h3]
      have h4 : (e :: (r ++ [b])).length - k = 1 := by
        simp at hkr ⊢
        omega
      rw [h4]
      rfl
  refine ⟨hfold, ?_, ?_, ?_⟩
  · intro hlen hnd
    rw [hfold hlen]
    simp only [List.map_cons, List.nodup_cons] at hnd
    exact cacheFind_eq_none_of_not_mem l e.1 hnd.1
  · intro hi hreg
    have himpl : (UnlockValueImpl s a v).1 =
        { decRefAt s a with
            cache := cachePush (decRefAt s a).cacheSize (decRefAt s a).cache (a, v) } := by
      unfold UnlockValueImpl
      simp only [hi]
      rw [if_neg (by
        intro hcon
        rw [hreg] at hcon
        exact Status.noConfusion hcon.2)]
      rw [if_pos hreg]
    show (UnlockValueImpl s a v).1.cache = _
    rw [himpl]
    show cachePush (decRefAt s a).cacheSize (decRefAt s a).cache (a, v) = _
    rw [decRefAt, cache_modifyInfo, cacheSize_modifyInfo]
  · intro hi hreg hfind hnd
    have himpl : LockValueImpl s (some a) =
        ({ incRefAt s a with cache := cacheEraseFirst s.cache a }, some v, []) := by
      unfold LockValueImpl
      simp only [hi]
      rw [if_pos hreg, hfind]
    constructor
    · show (LockValueImpl s (some a)).2.1 = some v
      rw [himpl]
    · show cacheFind (LockValueImpl s (some a)).1.cache a = none
      rw [himpl]
      exact cacheFind_cacheEraseFirst_self s.cache a hnd

theorem cache_fifo_bounded_witness :
    ([((0 : Nat), (10 : Nat)), (1, 11), (2, 12)].length = 2 + 1) ∧
    ([((0 : Nat), (10 : Nat)), (1, 11), (2, 12)].foldl (cachePush 2) [] = [(1, 11), (2, 12)]) ∧
    cacheFind ([((0 : Nat), (10 : Nat)), (1, 11), (2, 12)].foldl (cachePush 2) []) 0 = none ∧
    (UnlockValue ⟨[⟨⟨"A", 1⟩, Status.registered, 1⟩], [0], [], 2, 1⟩ 0 0).state.cache =
      cachePush 2 [] (0, 0) ∧
    (LockValue ⟨[⟨⟨"A", 1⟩, Status.registered, 0⟩], [0], [(0, 7)], 2, 1⟩ (some 0)).value =
      some 7 ∧
    cacheFind (LockValue ⟨[⟨⟨"A", 1⟩, Status.registered, 0⟩], [0], [(0, 7)], 2, 1⟩
      (some 0)).state.cache 0 = none := by
  have h1 := cache_fifo_bounded 2 (0, 10) [(1, 11), (2, 12)]
    (emptyState 2) 0 0 ⟨⟨"A", 1⟩, Status.registered, 1⟩
  have h2 := cache_fifo_bounded 2 (0, 10) [(1, 11), (2, 12)]
    ⟨[⟨⟨"A", 1⟩, Status.registered, 1⟩], [0], [], 2, 1⟩ 0 0
    ⟨⟨"A", 1⟩, Status.registered, 1⟩
  have h3 := cache_fifo_bounded 2 (0, 10) [(1, 11), (2, 12)]
    ⟨[⟨⟨"A", 1⟩, Status.registered, 0⟩], [0], [(0, 7)], 2, 1⟩ 0 7
    ⟨⟨"A", 1⟩, Status.registered, 0⟩
  refine ⟨by decide, h1.1 (by decide), h1.2.1 (by decide) (by decide),
    h2.2.2.1 (by decide) rfl, ?_, ?_⟩
  · exact (h3.2.2.2 (by decide) rfl (by decide) (by decide)).1
  · exact (h3.2.2.2 (by decide) rfl (by decide) (by decide)).2

/-! ### C1: positive refcount shields a record from `Deregistered` -/

theorem refInv_congr_heap (s t : RegistryState) (h : t.heap = s.heap) (hs : RefInv s) :
    RefInv t := by
  intro a i hi hpos
  refine hs a i ?_ hpos
  rw [RegistryState.infoAt, ← h]
  exact hi

theorem refInv_modifyInfo (s : RegistryState) (a : Nat) (f : MwmInfo → MwmInfo)
    (h : RefInv s)
    (hf : ∀ i, s.infoAt a = some i → 0 < (f i).numRefs → (f i).status ≠ Status.deregistered) :
    RefInv (modifyInfo s a f) := by
  intro b j hj hpos
  rw [infoAt_modifyInfo] at hj
  by_cases hb : b = a
  · rw [if_pos hb] at hj
    cases hi : s.infoAt a with
    | none => rw [hi] at hj; exact absurd hj (by simp)
    | some i =>
      rw [hi] at hj
      obtain rfl := Option.some.inj hj
      exact hf i hi hpos
  · rw [if_neg hb] at hj
    exact h b j hj hpos

theorem refInv_alloc (s : RegistryState) (f : LocalCountryFile) (h : RefInv s) :
    RefInv (allocInfo s f).1 := by
  intro b j hj hpos
  rw [infoAt_alloc] at hj
  by_cases hb : b = s.heap.length
  · rw [if_pos hb] at hj
    obtain rfl := Option.some.inj hj
    exact absurd hpos (Nat.lt_irrefl 0)
  · rw [if_neg hb] at hj
    exact h b j hj hpos

theorem deregisterImpl_state_none (s : RegistryState) (a : Nat)
    (hi : s.infoAt a = none) : (DeregisterImpl s a).1 = s := by
  unfold DeregisterImpl
  simp only [hi]

theorem deregisterImpl_state_dead (s : RegistryState) (a : Nat) (i : MwmInfo)
    (hi : s.infoAt a = some i) (h1 : i.status = Status.deregistered) :
    (DeregisterImpl s a).1 = s := by
  unfold DeregisterImpl
  simp only [hi]
  rw [if_pos h1]

theorem deregisterImpl_state_zero (s : RegistryState) (a : Nat) (i : MwmInfo)
    (hi : s.infoAt a = some i) (h1 : i.status ≠ Status.deregistered)
    (h2 : i.numRefs = 0) :
    (DeregisterImpl s a).1 = removeFromCatalog (setStatusAt s a Status.deregistered) a := by
  unfold DeregisterImpl
  simp only [hi]
  rw [if_neg h1, if_pos h2]

theorem deregisterImpl_state_live (s : RegistryState) (a : Nat) (i : MwmInfo)
    (hi : s.infoAt a = some i) (h1 : i.status ≠ Status.deregistered)
    (h2 : i.numRefs ≠ 0) :
    (DeregisterImpl s a).1 = setStatusAt s a Status.markedToDeregister := by
  unfold DeregisterImpl
  simp only [hi]
  rw [if_neg h1, if_neg h2]

theorem refInv_deregisterImpl (s : RegistryState) (a : Nat) (h : RefInv s) :
    RefInv (DeregisterImpl s a).1 := by
  cases hi : s.infoAt a with
  | none =>
    rw [deregisterImpl_state_none s a hi]
    exact h
  | some i =>
    by_cases h1 : i.status = Status.deregistered
    · rw [deregisterImpl_state_dead s a i hi h1]
      exact h
    · by_cases h2 : i.numRefs = 0
      · rw [deregisterImpl_state_zero s a i hi h1 h2]
        refine refInv_congr_heap _ _ rfl (refInv_modifyInfo s a _ h ?_)
        intro i0 hi0 hpos0
        obtain rfl := Option.some.inj (hi.symm.trans hi0)
        have hx : 0 < i.numRefs := hpos0
        exact absurd hx (by omega)
      · rw [deregisterImpl_state_live s a i hi h1 h2]
        refine refInv_modifyInfo s a _ h ?_
        intro i0 _ _
        intro hcon
        exact Status.noConfusion hcon

theorem refInv_deregisterFold (ms : List Nat) :
    ∀ acc : RegistryState × Bool × List Event, RefInv acc.1 →
      RefInv (ms.foldl
        (fun acc a =>
          let r := DeregisterImpl acc.1 a
          (r.1, acc.2.1 && r.2.1, acc.2.2 ++ r.2.2)) acc).1 := by
  induction ms with
  | nil => intro acc h; exact h
  | cons a t ih =>
    intro acc h
    exact ih _ (refInv_deregisterImpl acc.1 a h)

theorem registerBody_eq_fresh (s : RegistryState) (f : LocalCountryFile)
    (hid : GetMwmIdByCountryFileImpl s f.name = none) :
    RegisterBody f s =
      ((allocInfo s f).1, (some (allocInfo s f).2, RegResult.Success),
        [Event.mk1 EventType.registered f]) := by
  unfold RegisterBody
  simp only [hid]

theorem registerBody_eq_fresh_stale (s : RegistryState) (f : LocalCountryFile) (b : Nat)
    (hid : GetMwmIdByCountryFileImpl s f.name = some b) (hib : s.infoAt b = none) :
    RegisterBody f s =
      ((allocInfo s f).1, (some (allocInfo s f).2, RegResult.Success),
        [Event.mk1 EventType.registered f]) := by
  unfold RegisterBody
  simp only [hid, hib]

theorem registerBody_eq_same (s : RegistryState) (f : LocalCountryFile) (b : Nat)
    (j : MwmInfo) (hid : GetMwmIdByCountryFileImpl s f.name = some b)
    (hib : s.infoAt b = some j) (hv : j.file.version = f.version) :
    RegisterBody f s = (s, (some b, RegResult.VersionAlreadyExists), []) := by
  unfold RegisterBody
  simp only [hid, hib]
  rw [if_pos hv]

theorem registerBody_eq_upgrade (s : RegistryState) (f : LocalCountryFile) (b : Nat)
    (j : MwmInfo) (hid : GetMwmIdByCountryFileImpl s f.name = some b)
    (hib : s.infoAt b = some j) (hne : j.file.version ≠ f.version)
    (hlt : j.file.version < f.version) :
    RegisterBody f s =
      ((allocInfo (DeregisterImpl s b).1 f).1,
        (some (allocInfo (DeregisterImpl s b).1 f).2, RegResult.Success),
        [⟨EventType.updated, f, j.file⟩]) := by
  unfold RegisterBody
  simp only [hid, hib]
  rw [if_neg hne, if_pos hlt]

theorem registerBody_eq_old (s : RegistryState) (f : LocalCountryFile) (b : Nat)
    (j : MwmInfo) (hid : GetMwmIdByCountryFileImpl s f.name = some b)
    (hib : s.infoAt b = some j) (hne : j.file.version ≠ f.version)
    (hnlt : ¬ j.file.version < f.version) :
    RegisterBody f s = (s, (none, RegResult.VersionTooOld), []) := by
  unfold RegisterBody
  simp only [hid, hib]
  rw [if_neg hne, if_neg hnlt]

theorem refInv_registerBody (s : RegistryState) (f : LocalCountryFile) (h : RefInv s) :
    RefInv (RegisterBody f s).1 := by
  cases hid : GetMwmIdByCountryFileImpl s f.name with
  | none =>
    rw [registerBody_eq_fresh s f hid]
    exact refInv_alloc s f h
  | some b =>
    cases hib : s.infoAt b with
    | none =>
      rw [registerBody_eq_fresh_stale s f b hid hib]
      exact refInv_alloc s f h
    | some j =>
      by_cases h1 : j.file.version = f.version
      · rw [registerBody_eq_same s f b j hid hib h1]
        exact h
      · by_cases h2 : j.file.version < f.version
        · rw [registerBody_eq_upgrade s f b j hid hib h1 h2]
          exact refInv_alloc _ f (refInv_deregisterImpl s b h)
        · rw [registerBody_eq_old s f b j hid hib h1 h2]
          exact h

theorem refInv_deregisterBody (s : RegistryState) (n : String) (h : RefInv s) :
    RefInv (DeregisterBody n s).1 := by
  unfold DeregisterBody
  cases hm : aliveMatches s n with
  | nil => exact h
  | cons a t => exact refInv_deregisterFold (a :: t) (s, true, []) h

theorem lockValueImpl_eq_miss (s : RegistryState) (a : Nat)
    (hi : s.infoAt a = none) : LockValueImpl s (some a) = (s, none, []) := by
  unfold LockValueImpl
  simp only [hi]

theorem lockValueImpl_eq_notReg (s : RegistryState) (a : Nat) (i : MwmInfo)
    (hi : s.infoAt a = some i) (hreg : i.status ≠ Status.registered) :
    LockValueImpl s (some a) = (s, none, []) := by
  unfold LockValueImpl
  simp only [hi]
  rw [if_neg hreg]

theorem lockValueImpl_eq_hit (s : RegistryState) (a v : Nat) (i : MwmInfo)
    (hi : s.infoAt a = some i) (hreg : i.status = Status.registered)
    (hv : cacheFind s.cache a = some v) :
    LockValueImpl s (some a) =
      ({ incRefAt s a with cache := cacheEraseFirst s.cache a }, some v, []) := by
  unfold LockValueImpl
  simp only [hi]
  rw [if_pos hreg]
  simp only [hv]

theorem lockValueImpl_eq_open (s : RegistryState) (a : Nat) (i : MwmInfo)
    (hi : s.infoAt a = some i) (hreg : i.status = Status.registered)
    (hv : cacheFind s.cache a = none) :
    LockValueImpl s (some a) =
      ({ incRefAt s a with nextValue := s.nextValue + 1 }, some s.nextValue, []) := by
  unfold LockValueImpl
  simp only [hi]
  rw [if_pos hreg]
  simp only [hv]

theorem refInv_lockValueImpl (s : RegistryState) (id : MwmId) (h : RefInv s) :
    RefInv (LockValueImpl s id).1 := by
  cases id with
  | none => exact h
  | some a =>
    cases hi : s.infoAt a with
    | none =>
      rw [lockValueImpl_eq_miss s a hi]
      exact h
    | some i =>
      by_cases hreg : i.status = Status.registered
      · have hinc : RefInv (incRefAt s a) := by
          refine refInv_modifyInfo s a _ h ?_
          intro i0 hi0 _
          obtain rfl := Option.some.inj (hi.symm.trans hi0)
          show i.status ≠ Status.deregistered
          rw [hreg]
          intro hcon
          exact Status.noConfusion hcon
        cases hv : cacheFind s.cache a with
        | some v =>
          rw [lockValueImpl_eq_hit s a v i hi hreg hv]
          exact refInv_congr_heap _ _ rfl hinc
        | none =>
          rw [lockValueImpl_eq_open s a i hi hreg hv]
          exact refInv_congr_heap _ _ rfl hinc
      · rw [lockValueImpl_eq_notReg s a i hi hreg]
        exact h

theorem unlockValueImpl_eq_miss (s : RegistryState) (a v : Nat)
    (hi : s.infoAt a = none) : UnlockValueImpl s a v = (s, []) := by
  unfold UnlockValueImpl
  simp only [hi]

theorem unlockValueImpl_eq_last (s : RegistryState) (a v : Nat) (i : MwmInfo)
    (hi : s.infoAt a = some i)
    (hc : i.numRefs - 1 = 0 ∧ i.status = Status.markedToDeregister) :
    UnlockValueImpl s a v =
      ((DeregisterImpl (decRefAt s a) a).1, (DeregisterImpl (decRefAt s a) a).2.2) := by
  unfold UnlockValueImpl
  simp only [hi]
  rw [if_pos hc]

theorem unlockValueImpl_eq_reg (s : RegistryState) (a v : Nat) (i : MwmInfo)
    (hi : s.infoAt a = some i)
    (hc : ¬ (i.numRefs - 1 = 0 ∧ i.status = Status.markedToDeregister))
    (hreg : i.status = Status.registered) :
    UnlockValueImpl s a v =
      ({ decRefAt s a with
          cache := cachePush (decRefAt s a).cacheSize (decRefAt s a).cache (a, v) }, []) := by
  unfold UnlockValueImpl
  simp only [hi]
  rw [if_neg hc, if_pos hreg]

theorem unlockValueImpl_eq_other (s : RegistryState) (a v : Nat) (i : MwmInfo)
    (hi : s.infoAt a = some i)
    (hc : ¬ (i.numRefs - 1 = 0 ∧ i.status = Status.markedToDeregister))
    (hreg : i.status ≠ Status.registered) :
    UnlockValueImpl s a v = (decRefAt s a, []) := by
  unfold UnlockValueImpl
  simp only [hi]
  rw [if_neg hc, if_neg hreg]

theorem refInv_unlockValueImpl (s : RegistryState) (a v : Nat) (h : RefInv s) :
    RefInv (UnlockValueImpl s a v).1 := by
  cases hi : s.infoAt a with
  | none =>
    rw [unlockValueImpl_eq_miss s a v hi]
    exact h
  | some i =>
    have hdec : RefInv (decRefAt s a) := by
      refine refInv_modifyInfo s a _ h ?_
      intro i0 hi0 hpos0
      exact h a i0 hi0 (lt_of_lt_of_le hpos0 (Nat.sub_le _ _))
    by_cases h1 : i.numRefs - 1 = 0 ∧ i.status = Status.markedToDeregister
    · rw [unlockValueImpl_eq_last s a v i hi h1]
      exact refInv_deregisterImpl _ _ hdec
    · by_cases h2 : i.status = Status.registered
      · rw [unlockValueImpl_eq_reg s a v i hi h1 h2]
        exact refInv_congr_heap _ _ rfl hdec
      · rw [unlockValueImpl_eq_other s a v i hi h1 h2]
        exact hdec

theorem deregisterImpl_marks (s : RegistryState) (b : Nat) (i : MwmInfo)
    (hib : s.infoAt b = some i) (hnd : i.status ≠ Status.deregistered)
    (hpos : 0 < i.numRefs) :
    (DeregisterImpl s b).1.infoAt b = some { i with status := Status.markedToDeregister } ∧
    (DeregisterImpl s b).1.catalog = s.catalog := by
  have hstate : (DeregisterImpl s b).1 = setStatusAt s b Status.markedToDeregister := by
    unfold DeregisterImpl
    simp only [hib]
    rw [if_neg hnd, if_neg (by omega)]
  rw [hstate]
  constructor
  · rw [setStatusAt, infoAt_modifyInfo, if_pos rfl, hib]
    rfl
  · exact catalog_modifyInfo s b _

theorem deregisterImpl_removes (s : RegistryState) (b : Nat) (i : MwmInfo)
    (hib : s.infoAt b = some i) (hnd : i.status ≠ Status.deregistered)
    (hz : i.numRefs = 0) :
    (DeregisterImpl s b).1.infoAt b = some { i with status := Status.deregistered } ∧
    (DeregisterImpl s b).1.catalog = s.catalog.erase b := by
  have hstate : (DeregisterImpl s b).1 =
      removeFromCatalog (setStatusAt s b Status.deregistered) b := by
    unfold DeregisterImpl
    simp only [hib]
    rw [if_neg hnd, if_pos hz]
  rw [hstate]
  constructor
  · rw [infoAt_removeFromCatalog, setStatusAt, infoAt_modifyInfo, if_pos rfl, hib]
    rfl
  · show (setStatusAt s b Status.deregistered).catalog.erase b = s.catalog.erase b
    rw [setStatusAt, catalog_modifyInfo]

/-- C1: a record with a positive refcount (outstanding handles) is never
put into status `Deregistered`: every registry operation preserves the
invariant that a positive-refcount record is non-`Deregistered`; a
deregistration hitting a positive-refcount record only marks it
`MarkedForDeregistration` and leaves it in the catalog; and the
transition to `Deregistered` — together with leaving the catalog —
happens only on a record whose refcount is 0. -/
theorem refcount_guards_removal (s : RegistryState) (f : LocalCountryFile)
    (n : String) (id : MwmId) (a v b : Nat) (i : MwmInfo)
    (hInv : RefInv s) :
    RefInv (Register s f).state ∧
    RefInv (Deregister s n).state ∧
    RefInv (LockValue s id).state ∧
    RefInv (UnlockValue s a v).state ∧
    RefInv (Clear s).state ∧
    (s.infoAt b = some i → i.status ≠ Status.deregistered → 0 < i.numRefs →
      (DeregisterImpl s b).1.infoAt b = some { i with status := Status.markedToDeregister } ∧
      (DeregisterImpl s b).1.catalog = s.catalog) ∧
    (s.infoAt b = some i → i.status ≠ Status.deregistered → i.numRefs = 0 →
      (DeregisterImpl s b).1.infoAt b = some { i with status := Status.deregistered } ∧
      (DeregisterImpl s b).1.catalog = s.catalog.erase b) :=
  ⟨refInv_registerBody s f hInv,
   refInv_deregisterBody s n hInv,
   refInv_lockValueImpl s id hInv,
   refInv_unlockValueImpl s a v hInv,
   refInv_congr_heap s _ rfl hInv,
   fun hib hnd hpos => deregisterImpl_marks s b i hib hnd hpos,
   fun hib hnd hz => deregisterImpl_removes s b i hib hnd hz⟩

theorem refcount_guards_removal_witness :
    RefInv ⟨[⟨⟨"A", 1⟩, Status.registered, 1⟩], [0], [], 4, 1⟩ ∧
    (DeregisterImpl ⟨[⟨⟨"A", 1⟩, Status.registered, 1⟩], [0], [], 4, 1⟩ 0).1.infoAt 0 =
      some ⟨⟨"A", 1⟩, Status.markedToDeregister, 1⟩ ∧
    (DeregisterImpl ⟨[⟨⟨"A", 1⟩, Status.registered, 1⟩], [0], [], 4, 1⟩ 0).1.catalog = [0] := by
  have h0 : RefInv ⟨[⟨⟨"A", 1⟩, Status.registered, 1⟩], [0], [], 4, 1⟩ := by
    intro a i hi hpos
    cases a with
    | zero =>
      rw [show (RegistryState.infoAt ⟨[⟨⟨"A", 1⟩, Status.registered, 1⟩], [0], [], 4, 1⟩ 0)
          = some ⟨⟨"A", 1⟩, Status.registered, 1⟩ from rfl] at hi
      obtain rfl := Option.some.inj hi
      decide
    | succ m =>
      exact absurd hi (by
        rw [show (RegistryState.infoAt ⟨[⟨⟨"A", 1⟩, Status.registered, 1⟩], [0], [], 4, 1⟩
            (m + 1)) = none from rfl]
        simp)
  have h := refcount_guards_removal ⟨[⟨⟨"A", 1⟩, Status.registered, 1⟩], [0], [], 4, 1⟩
    ⟨"A", 1⟩ "A" none 0 0 0 ⟨⟨"A", 1⟩, Status.registered, 1⟩ h0
  have hm := h.2.2.2.2.2.1 (by decide) (by decide) (by decide)
  exact ⟨h0, hm.1, hm.2⟩

/-! ### C4: increasing registrations keep one alive entry per version -/

/-- No two distinct alive catalog entries among `l` carry the same
(name, version) pair. -/
def alivePairsOK (s : RegistryState) : List Nat → Bool
  | [] => true
  | a :: r =>
    (r.all fun b =>
      !(aliveAt s a && aliveAt s b &&
        decide ((s.infoAt a).map MwmInfo.file = (s.infoAt b).map MwmInfo.file))) &&
    alivePairsOK s r

/-- The catalog-wide no-duplicate-alive-version check. -/
def noDupAliveVersions (s : RegistryState) : Bool := alivePairsOK s s.catalog

/-- Register a sequence of versions of one name into a fresh registry. -/
def registerSeq (n : String) (vs : List Nat) : RegistryState :=
  vs.foldl (fun t w => (Register t ⟨n, w⟩).state) (emptyState 64)

/-- The single-entry shape the catalog keeps along an increasing
registration sequence: exactly one record, registered, refcount 0. -/
def SingleReg (s : RegistryState) (n : String) (v a : Nat) : Prop :=
  s.catalog = [a] ∧ s.infoAt a = some ⟨⟨n, v⟩, Status.registered, 0⟩

theorem heapLength_modifyInfo (s : RegistryState) (a : Nat) (f : MwmInfo → MwmInfo) :
    (modifyInfo s a f).heap.length = s.heap.length := by
  unfold modifyInfo
  cases s.infoAt a with
  | none => rfl
  | some i => simp

theorem lookup_singleReg (s : RegistryState) (n : String) (v a : Nat)
    (h : SingleReg s n v a) : GetMwmIdByCountryFileImpl s n = some a := by
  obtain ⟨hc, hi⟩ := h
  unfold GetMwmIdByCountryFileImpl
  rw [hc]
  simp only [List.foldl_cons, List.foldl_nil]
  simp only [hi]
  split
  · rfl
  · next hneg => exact absurd ⟨trivial, fun hcon => Status.noConfusion hcon⟩ hneg

theorem singleReg_register_step (s : RegistryState) (n : String) (v a w : Nat)
    (h : SingleReg s n v a) (hvw : v < w) :
    SingleReg (Register s ⟨n, w⟩).state n w s.heap.length := by
  obtain ⟨hc, hi⟩ := h
  have hlook : GetMwmIdByCountryFileImpl s (⟨n, w⟩ : LocalCountryFile).name = some a :=
    lookup_singleReg s n v a ⟨hc, hi⟩
  have hreg := registerBody_eq_upgrade s ⟨n, w⟩ a ⟨⟨n, v⟩, Status.registered, 0⟩
    hlook hi (Nat.ne_of_lt hvw) hvw
  have hdereg : (DeregisterImpl s a).1 =
      removeFromCatalog (setStatusAt s a Status.deregistered) a :=
    deregisterImpl_state_zero s a _ hi (fun hcon => Status.noConfusion hcon) rfl
  show SingleReg (RegisterBody ⟨n, w⟩ s).1 n w s.heap.length
  rw [hreg, hdereg]
  have hlen : (removeFromCatalog (setStatusAt s a Status.deregistered) a).heap.length =
      s.heap.length := by
    show (setStatusAt s a Status.deregistered).heap.length = s.heap.length
    exact heapLength_modifyInfo s a _
  have hcat : (removeFromCatalog (setStatusAt s a Status.deregistered) a).catalog = [] := by
    show (setStatusAt s a Status.deregistered).catalog.erase a = []
    rw [setStatusAt, catalog_modifyInfo, hc]
    simp [List.erase_cons]
  constructor
  · show (removeFromCatalog (setStatusAt s a Status.deregistered) a).catalog ++
      [(removeFromCatalog (setStatusAt s a Status.deregistered) a).heap.length] =
        [s.heap.length]
    rw [hcat, hlen]
    rfl
  · show (allocInfo (removeFromCatalog (setStatusAt s a Status.deregistered) a)
        ⟨n, w⟩).1.infoAt s.heap.length = some ⟨⟨n, w⟩, Status.registered, 0⟩
    rw [infoAt_alloc, if_pos hlen.symm]

theorem singleReg_register_empty (n : String) (k w : Nat) :
    SingleReg (Register (emptyState k) ⟨n, w⟩).state n w 0 := by
  refine ⟨?_, ?_⟩
  · show (Register (emptyState k) ⟨n, w⟩).state.catalog = [0]
    rfl
  · show (Register (emptyState k) ⟨n, w⟩).state.infoAt 0 =
      some ⟨⟨n, w⟩, Status.registered, 0⟩
    rfl

theorem singleReg_fold (n : String) (vs : List Nat) :
    ∀ (s : RegistryState) (v a : Nat), SingleReg s n v a → List.Chain (· < ·) v vs →
      ∃ aE vE, SingleReg (vs.foldl (fun t w => (Register t ⟨n, w⟩).state) s) n vE aE := by
  induction vs with
  | nil =>
    intro s v a h _
    exact ⟨a, v, h⟩
  | cons w t ih =>
    intro s v a h hch
    cases hch with
    | cons hvw hch2 =>
      exact ih (Register s ⟨n, w⟩).state w s.heap.length
        (singleReg_register_step s n v a w h hvw) hch2

theorem singleReg_conclusions (s : RegistryState) (n : String) (v a : Nat)
    (h : SingleReg s n v a) :
    noDupAliveVersions s = true ∧
    (∀ c, GetMwmIdByCountryFileImpl s n = some c →
      aliveAt s c = true ∧
      ∃ i, s.infoAt c = some i ∧ i.file.name = n ∧
        ∀ b j, b ∈ s.catalog → s.infoAt b = some j → aliveAt s b = true →
          j.file.name = n → j.file.version ≤ i.file.version) ∧
    ((∃ b, b ∈ s.catalog ∧ aliveAt s b = true ∧
        ∃ j, s.infoAt b = some j ∧ j.file.name = n) →
      GetMwmIdByCountryFileImpl s n ≠ none) := by
  obtain ⟨hc, hi⟩ := h
  have hlook := lookup_singleReg s n v a ⟨hc, hi⟩
  refine ⟨?_, ?_, ?_⟩
  · unfold noDupAliveVersions
    rw [hc]
    rfl
  · intro c hceq
    rw [hlook] at hceq
    obtain rfl := Option.some.inj hceq
    have halive : aliveAt s a = true := by
      unfold aliveAt MwmId.IsAlive
      simp only [hi]
      rfl
    refine ⟨halive, ⟨⟨n, v⟩, Status.registered, 0⟩, hi, rfl, ?_⟩
    intro b j hb hj _ _
    rw [hc] at hb
    have hba : b = a := by simpa using hb
    subst hba
    obtain rfl := Option.some.inj (hi.symm.trans hj)
    exact Nat.le_refl _
  · intro _
    rw [hlook]
    simp

/-- C4: for every sequence of `Register` calls on distinct increasing
versions of one name, the catalog never holds two alive entries with the
same (name, version), and name lookup resolves to the alive catalog entry
of that name with the highest version (and finds one whenever an alive
entry with that name exists). -/
theorem register_sequence_catalog (n : String) (vs : List Nat)
    (hvs : List.Chain' (· < ·) vs) :
    noDupAliveVersions (registerSeq n vs) = true ∧
    (∀ c, GetMwmIdByCountryFileImpl (registerSeq n vs) n = some c →
      aliveAt (registerSeq n vs) c = true ∧
      ∃ i, (registerSeq n vs).infoAt c = some i ∧ i.file.name = n ∧
        ∀ b j, b ∈ (registerSeq n vs).catalog → (registerSeq n vs).infoAt b = some j →
          aliveAt (registerSeq n vs) b = true → j.file.name = n →
          j.file.version ≤ i.file.version) ∧
    ((∃ b, b ∈ (registerSeq n vs).catalog ∧ aliveAt (registerSeq n vs) b = true ∧
        ∃ j, (registerSeq n vs).infoAt b = some j ∧ j.file.name = n) →
      GetMwmIdByCountryFileImpl (registerSeq n vs) n ≠ none) := by
  cases vs with
  | nil =>
    refine ⟨rfl, ?_, ?_⟩
    · intro c hceq
      have : GetMwmIdByCountryFileImpl (registerSeq n []) n = none := rfl
      rw [this] at hceq
      exact Option.noConfusion hceq
    · intro hex
      obtain ⟨b, hb, _⟩ := hex
      have : (registerSeq n []).catalog = [] := rfl
      rw [this] at hb
      exact absurd hb (by simp)
  | cons v t =>
    have hch : List.Chain (· < ·) v t := hvs
    have hbase := singleReg_register_empty n 64 v
    have hfold := singleReg_fold n t (Register (emptyState 64) ⟨n, v⟩).state v 0 hbase hch
    obtain ⟨aE, vE, hE⟩ := hfold
    have heq : registerSeq n (v :: t) =
        t.foldl (fun s w => (Register s ⟨n, w⟩).state)
          (Register (emptyState 64) ⟨n, v⟩).state := rfl
    rw [heq]
    exact singleReg_conclusions _ n vE aE hE

theorem register_sequence_catalog_witness :
    List.Chain' (fun x y => x < y) [1, 2, 3] ∧
    noDupAliveVersions (registerSeq "A" [1, 2, 3]) = true := by
  have hch : List.Chain' (fun x y => x < y) [1, 2, 3] := by
    refine List.chain'_cons.mpr ⟨by omega, ?_⟩
    refine List.chain'_cons.mpr ⟨by omega, ?_⟩
    exact List.chain'_singleton 3
  exact ⟨hch, (register_sequence_catalog "A" [1, 2, 3] hch).1⟩

end MwmSetModel
